import Mathlib

/-!
Verification of the multidevice pipeline executor
(`csrc/multidevice/executor.cpp`, namespace `nvfuser`).

The C++ code is shallowly embedded: machine-size quantities (`size_t`
indices, rank and device-index values) are modelled as `Nat` (all arithmetic
in the source is on small non-negative container sizes, so no overflow is
reachable), C++ exceptions (`TORCH_INTERNAL_ASSERT`, `std::vector::at`,
`std::map::at`, `IValue::toTensor` on a `None` payload) are modelled as the
`Outcome.fatal` result, and unchecked undefined behaviour (integer division
by zero) as the distinguished `Outcome.ub` result.  External collaborators
(the `FusionExecutorCache` runner, the `Communicator`, the rank/device
mapping) are opaque parameters gathered in a `Runtime` record; the executor
additionally records instrumentation logs (`fecConstructions`,
`membershipComputations`, the list of issued send/recv calls) so that
"how many times" properties can be stated.
-/

namespace Nvfuser

/-- Process rank (`RankType` in the source). -/
abbrev RankType := Nat

/-- Device index (`DeviceIdxType` in the source). -/
abbrev DeviceIdxType := Nat

/-- Identity of a graph value (`Val*` pointer identity in the source). -/
abbrev ValId := Nat

/-- Opaque tensor payload; the executor never inspects tensor contents. -/
abbrev Tensor := Nat

/-- `struct SendRecvDescriptor { std::vector<RankType> team; RankType root; }`. -/
structure SendRecvDescriptor where
  team : List RankType
  root : RankType
deriving DecidableEq, Repr

/-- Result of running a piece of C++ code: normal return, a thrown /
asserted fatal error, or undefined behaviour (e.g. division by zero). -/
inductive Outcome (α : Type) where
  | ok : α → Outcome α
  | fatal : String → Outcome α
  | ub : Outcome α
deriving DecidableEq, Repr

/-- The descriptor-building loop of `handle(PipelineCommunication*)`
(executor.cpp lines 88-99): for sender index `i` (starting at `i`, receiver
cursor at `j`), build `{team := src :: slice, root := src}` where the slice
takes `q + (i < r)` receivers starting at cursor `j`; `q` is
`nbr_dests_per_comm` and `r` is `remainder`. -/
def mkDescriptors (receivers : List RankType) (q r : Nat) :
    List RankType → Nat → Nat → List SendRecvDescriptor
  | [], _, _ => []
  | src :: rest, i, j =>
    let sz := q + (if i < r then 1 else 0)
    { team := src :: ((receivers.drop j).take sz), root := src } ::
      mkDescriptors receivers q r rest (i + 1) (j + sz)

/-- Lowering of a communication into `SendRecvDescriptor`s
(executor.cpp lines 64-100).  `nbr_dests_per_comm = |R| / |S|` and
`remainder = |R| % |S|` are computed with `size_t` division, which is
undefined behaviour when `|S| = 0`; the source performs no emptiness
check, so that case is `Outcome.ub`. -/
def lowerCommunication (sender_ranks receiver_ranks : List RankType) :
    Outcome (List SendRecvDescriptor) :=
  if sender_ranks.length = 0 then Outcome.ub
  else
    Outcome.ok
      (mkDescriptors receiver_ranks
        (receiver_ranks.length / sender_ranks.length)
        (receiver_ranks.length % sender_ranks.length)
        sender_ranks 0 0)

/-- The dispatch loop of `handle(PipelineCommunication*)` (executor.cpp
lines 111-116): for each descriptor, for each member of its team (the root
included, since `team` starts with `src`), one
`sendRecv(receiver_rank, sender_rank, tensor)` call.  A call is recorded as
the pair `(receiver_rank, sender_rank)`. -/
def sendRecvCalls (communications : List SendRecvDescriptor) :
    List (RankType × RankType) :=
  communications.flatMap
    (fun c => c.team.map (fun receiver_rank => (receiver_rank, c.root)))

/-- Total number of receivers handed out to the senders at indices
`i, i+1, ..., i+n-1`: each gets `q`, plus one extra while the index is
below `r`. -/
def totSz (q r i : Nat) : Nat → Nat
  | 0 => 0
  | n + 1 => (q + if i < r then 1 else 0) + totSz q r (i + 1) n

theorem totSz_eq (q r : Nat) : ∀ (n i : Nat),
    totSz q r i n = q * n + (min r (i + n) - min r i) := by
  intro n
  induction n with
  | zero => intro i; simp [totSz]
  | succ n ih =>
    intro i
    have h := ih (i + 1)
    simp only [totSz, h]
    have hmul : q * (n + 1) = q * n + q := by ring
    rcases Nat.lt_or_ge i r with hir | hir
    · simp only [if_pos hir]
      have h1 : min r (i + 1) = i + 1 := Nat.min_eq_right hir
      omega
    · simp only [if_neg (Nat.not_lt.mpr hir)]
      have h1 : min r i = r := Nat.min_eq_left hir
      have h2 : min r (i + 1) = r := Nat.min_eq_left (Nat.le_succ_of_le hir)
      have h3 : min r (i + 1 + n) = r := Nat.min_eq_left (by omega)
      have h4 : min r (i + (n + 1)) = r := Nat.min_eq_left (by omega)
      omega

theorem mkDescriptors_length (R : List RankType) (q r : Nat) :
    ∀ (ss : List RankType) (i j : Nat),
      (mkDescriptors R q r ss i j).length = ss.length := by
  intro ss
  induction ss with
  | nil => intro i j; rfl
  | cons src rest ih => intro i j; simp [mkDescriptors, ih]

/-- The teams' tails (the non-root members), concatenated, are the slice of
the receiver list starting at cursor `j` of total length `totSz q r i |ss|`. -/
theorem mkDescriptors_flatten_tails (R : List RankType) (q r : Nat) :
    ∀ (ss : List RankType) (i j : Nat),
      ((mkDescriptors R q r ss i j).map (fun d => d.team.drop 1)).flatten =
        (R.drop j).take (totSz q r i ss.length) := by
  intro ss
  induction ss with
  | nil => intro i j; simp [mkDescriptors, totSz]
  | cons src rest ih =>
    intro i j
    simp only [mkDescriptors, List.map_cons, List.flatten_cons, List.drop_succ_cons,
      List.drop_zero, List.length_cons, totSz, ih]
    rw [List.take_add (R.drop j) (q + if i < r then 1 else 0)
      (totSz q r (i + 1) rest.length)]
    rw [List.drop_drop]

theorem mkDescriptors_get (R : List RankType) (q r : Nat) :
    ∀ (ss : List RankType) (i j k : Nat) (hk : k < ss.length),
      (mkDescriptors R q r ss i j).get
          ⟨k, by rw [mkDescriptors_length]; exact hk⟩ =
        { team := ss.get ⟨k, hk⟩ ::
            ((R.drop (j + totSz q r i k)).take
              (q + if i + k < r then 1 else 0)),
          root := ss.get ⟨k, hk⟩ } := by
  intro ss
  induction ss with
  | nil => intro i j k hk; exact absurd hk (Nat.not_lt_zero k)
  | cons src rest ih =>
    intro i j k hk
    cases k with
    | zero => simp [mkDescriptors, totSz]
    | succ k =>
      have hk' : k < rest.length := Nat.lt_of_succ_lt_succ hk
      have := ih (i + 1) (j + (q + if i < r then 1 else 0)) k hk'
      simp only [mkDescriptors, List.get_cons_succ, this, totSz]
      have harith : j + (q + if i < r then 1 else 0) + totSz q r (i + 1) k =
          j + ((q + if i < r then 1 else 0) + totSz q r (i + 1) k) := by omega
      have hidx : i + 1 + k = i + (k + 1) := by omega
      rw [harith, hidx]

theorem mkDescriptors_map_root (R : List RankType) (q r : Nat) :
    ∀ (ss : List RankType) (i j : Nat),
      (mkDescriptors R q r ss i j).map SendRecvDescriptor.root = ss := by
  intro ss
  induction ss with
  | nil => intro i j; rfl
  | cons src rest ih => intro i j; simp [mkDescriptors, ih]

/-- At the top level (`i = 0`, `j = 0`, `q = |R| / |S|`, `r = |R| % |S|`),
the concatenated non-root team members are exactly `R`. -/
theorem mkDescriptors_flatten_tails_top (S R : List RankType)
    (hlen : S.length ≠ 0) :
    ((mkDescriptors R (R.length / S.length) (R.length % S.length) S 0 0).map
      (fun d => d.team.drop 1)).flatten = R := by
  set q := R.length / S.length with hq
  set r := R.length % S.length with hr
  have hdm : S.length * q + r = R.length := Nat.div_add_mod R.length S.length
  have := mkDescriptors_flatten_tails R q r S 0 0
  rw [this, totSz_eq, List.drop_zero]
  have h1 : q * S.length + (min r (0 + S.length) - min r 0) = R.length := by
    have hrS : r < S.length := Nat.mod_lt _ (Nat.pos_of_ne_zero hlen)
    have h2 : min r (0 + S.length) = r := Nat.min_eq_left (by omega)
    have h3 : S.length * q = q * S.length := Nat.mul_comm S.length q
    have h4 : min r 0 = 0 := Nat.min_eq_right (Nat.zero_le r)
    omega
  rw [h1, List.take_length]

/-- C1: for a communication edge with non-empty ordered sender rank list `S`
and ordered receiver rank list `R`, the lowering produces exactly one
descriptor per sender in sender order; descriptor `k`'s non-root members are
the contiguous slice of `R` starting at `(|R|/|S|)*k + min (|R|%|S|) k` of
size `|R|/|S|` plus one extra for the first `|R| mod |S|` senders, and the
concatenation of all non-root members is exactly `R`. -/
theorem communication_lowering_partition
    (S R : List RankType) (hS : S ≠ []) :
    ∃ ds, lowerCommunication S R = Outcome.ok ds ∧
      ds.map SendRecvDescriptor.root = S ∧
      (∀ k (hk : k < ds.length),
        (ds.get ⟨k, hk⟩).team.drop 1 =
          (R.drop ((R.length / S.length) * k + min (R.length % S.length) k)).take
            (R.length / S.length + if k < R.length % S.length then 1 else 0) ∧
        ((ds.get ⟨k, hk⟩).team.drop 1).length =
          R.length / S.length + if k < R.length % S.length then 1 else 0) ∧
      (ds.map (fun d => d.team.drop 1)).flatten = R := by
  have hlen : S.length ≠ 0 := fun h => hS (List.length_eq_zero.mp h)
  set q := R.length / S.length with hq
  set r := R.length % S.length with hr
  have hdm : S.length * q + r = R.length := Nat.div_add_mod R.length S.length
  have hrS : r < S.length := Nat.mod_lt _ (Nat.pos_of_ne_zero hlen)
  refine ⟨mkDescriptors R q r S 0 0, ?_, mkDescriptors_map_root R q r S 0 0, ?_, ?_⟩
  · simp [lowerCommunication, hlen]
  · intro k hk
    have hkS : k < S.length := by
      rw [mkDescriptors_length] at hk; exact hk
    have hget := mkDescriptors_get R q r S 0 0 k hkS
    have hoff : totSz q r 0 k = q * k + min r k := by
      rw [totSz_eq]; simp
    have hteam : (mkDescriptors R q r S 0 0).get ⟨k, hk⟩ =
        { team := S.get ⟨k, hkS⟩ ::
            ((R.drop (0 + totSz q r 0 k)).take (q + if 0 + k < r then 1 else 0)),
          root := S.get ⟨k, hkS⟩ } := hget
    rw [hteam]
    simp only [List.drop_succ_cons, List.drop_zero, Nat.zero_add, hoff]
    refine ⟨trivial, ?_⟩
    have hbound : q * k + min r k + (q + if k < r then 1 else 0) ≤ R.length := by
      have h1 : q * (k + 1) ≤ q * S.length := Nat.mul_le_mul_left q hkS
      have h2 : q * (k + 1) = q * k + q := by ring
      have h3 : S.length * q = q * S.length := Nat.mul_comm S.length q
      rcases Nat.lt_or_ge k r with hkr | hkr
      · have hmin : min r k = k := Nat.min_eq_right (Nat.le_of_lt hkr)
        rw [hmin, if_pos hkr]
        omega
      · have hmin : min r k = r := Nat.min_eq_left hkr
        rw [hmin, if_neg (Nat.not_lt.mpr hkr)]
        omega
    rw [List.length_take, List.length_drop]
    omega
  · exact mkDescriptors_flatten_tails_top S R hlen

/-- Witness for C1 at `S = [0, 1]`, `R = [10, 11, 12]`. -/
theorem communication_lowering_partition_witness :
    ([0, 1] : List RankType) ≠ [] ∧
    (∃ ds, lowerCommunication [0, 1] [10, 11, 12] = Outcome.ok ds ∧
      ds.map SendRecvDescriptor.root = [0, 1] ∧
      (∀ k (hk : k < ds.length),
        (ds.get ⟨k, hk⟩).team.drop 1 =
          (([10, 11, 12] : List RankType).drop
            (([10, 11, 12] : List RankType).length / ([0, 1] : List RankType).length * k +
              min (([10, 11, 12] : List RankType).length % ([0, 1] : List RankType).length) k)).take
            (([10, 11, 12] : List RankType).length / ([0, 1] : List RankType).length +
              if k < ([10, 11, 12] : List RankType).length % ([0, 1] : List RankType).length
              then 1 else 0) ∧
        ((ds.get ⟨k, hk⟩).team.drop 1).length =
          ([10, 11, 12] : List RankType).length / ([0, 1] : List RankType).length +
            if k < ([10, 11, 12] : List RankType).length % ([0, 1] : List RankType).length
            then 1 else 0) ∧
      (ds.map (fun d => d.team.drop 1)).flatten = [10, 11, 12]) :=
  ⟨by decide, communication_lowering_partition [0, 1] [10, 11, 12] (by decide)⟩

theorem mkDescriptors_team_shape (R : List RankType) (q r : Nat) :
    ∀ (ss : List RankType) (i j : Nat),
      ∀ d ∈ mkDescriptors R q r ss i j, ∃ t, d.team = d.root :: t := by
  intro ss
  induction ss with
  | nil => intro i j d hd; exact absurd hd (List.not_mem_nil d)
  | cons src rest ih =>
    intro i j d hd
    rcases List.mem_cons.mp hd with h | h
    · subst h; exact ⟨_, rfl⟩
    · exact ih _ _ d h

theorem sendRecvCalls_length (R : List RankType) (q r : Nat) :
    ∀ (ss : List RankType) (i j : Nat),
      (sendRecvCalls (mkDescriptors R q r ss i j)).length =
        ss.length +
          (((mkDescriptors R q r ss i j).map (fun d => d.team.drop 1)).flatten).length := by
  intro ss
  induction ss with
  | nil => intro i j; rfl
  | cons src rest ih =>
    intro i j
    simp only [mkDescriptors, sendRecvCalls, List.flatMap_cons, List.map_cons,
      List.flatten_cons, List.length_append, List.length_map, List.length_cons,
      List.drop_succ_cons, List.drop_zero]
    have := ih (i + 1) (j + (q + if i < r then 1 else 0))
    simp only [sendRecvCalls] at this
    rw [this]
    have htake : ((R.drop j).take (q + if i < r then 1 else 0)).length ≤
        (q + if i < r then 1 else 0) := by
      rw [List.length_take]; omega
    omega

/-- C10: for a communication edge with non-empty sender ranks `S` and
receiver ranks `R`, the dispatch loop issues exactly `|S| + |R|`
`sendRecv` calls; every descriptor's team has its own root as first member,
so every sender gets one self-addressed call `(root, root)` in addition to
the calls targeting its assigned receivers. -/
theorem sendrecv_call_count (S R : List RankType) (hS : S ≠ []) :
    ∃ ds, lowerCommunication S R = Outcome.ok ds ∧
      (sendRecvCalls ds).length = S.length + R.length ∧
      ∀ d ∈ ds, d.team.head? = some d.root ∧ (d.root, d.root) ∈ sendRecvCalls ds := by
  have hlen : S.length ≠ 0 := fun h => hS (List.length_eq_zero.mp h)
  set q := R.length / S.length with hq
  set r := R.length % S.length with hr
  refine ⟨mkDescriptors R q r S 0 0, by simp [lowerCommunication, hlen], ?_, ?_⟩
  · rw [sendRecvCalls_length, mkDescriptors_flatten_tails_top S R hlen]
  · intro d hd
    obtain ⟨t, ht⟩ := mkDescriptors_team_shape R q r S 0 0 d hd
    refine ⟨by rw [ht]; rfl, ?_⟩
    apply List.mem_flatMap.mpr
    exact ⟨d, hd, by rw [ht]; exact List.mem_map_of_mem _ (List.mem_cons_self _ _)⟩

/-- Witness for C10 at `S = [3, 4]`, `R = [8]` (fewer receivers than
senders: 2 + 1 = 3 calls). -/
theorem sendrecv_call_count_witness :
    ([3, 4] : List RankType) ≠ [] ∧
    (∃ ds, lowerCommunication [3, 4] [8] = Outcome.ok ds ∧
      (sendRecvCalls ds).length = ([3, 4] : List RankType).length + ([8] : List RankType).length ∧
      ∀ d ∈ ds, d.team.head? = some d.root ∧ (d.root, d.root) ∈ sendRecvCalls ds) :=
  ⟨by decide, sendrecv_call_count [3, 4] [8] (by decide)⟩

/-- C2 counterexample: for the edge with senders `[5]` and receivers `[7]`
the single descriptor has root `5`, and the dispatch loop issues the call
`(5, 5)` — a transfer whose designated receiver is the root itself — so the
claim "performs no transfer whose designated receiver is the root" is false,
and the claim's "one call per non-root member" undercounts (two calls are
issued for one non-root member). -/
theorem comm_call_to_root_counterexample :
    lowerCommunication [5] [7] =
      Outcome.ok [{ team := [5, 7], root := 5 }] ∧
    sendRecvCalls [{ team := [5, 7], root := 5 }] = [(5, 5), (7, 5)] := by
  constructor
  · rfl
  · rfl

/-- C2 amended: during transfer execution, the executor issues one
point-to-point call for each member of each descriptor's team — the root
itself included — with the descriptor's root as the sender rank: per
descriptor, a self-addressed call `(root, root)` followed by one call
`(member, root)` per non-root member. -/
theorem comm_calls_cover_whole_team (S R : List RankType) (hS : S ≠ []) :
    ∃ ds, lowerCommunication S R = Outcome.ok ds ∧
      sendRecvCalls ds =
        ds.flatMap (fun d =>
          (d.root, d.root) :: (d.team.drop 1).map (fun m => (m, d.root))) := by
  have hlen : S.length ≠ 0 := fun h => hS (List.length_eq_zero.mp h)
  set q := R.length / S.length with hq
  set r := R.length % S.length with hr
  refine ⟨mkDescriptors R q r S 0 0, by simp [lowerCommunication, hlen], ?_⟩
  have hshape := mkDescriptors_team_shape R q r S 0 0
  generalize hgen : mkDescriptors R q r S 0 0 = ds at hshape ⊢
  clear hgen
  induction ds with
  | nil => rfl
  | cons d rest ih =>
    obtain ⟨t, ht⟩ := hshape d (List.mem_cons_self d rest)
    simp only [sendRecvCalls, List.flatMap_cons] at ih ⊢
    rw [ih (fun e he => hshape e (List.mem_cons_of_mem d he)), ht]
    rfl

/-- Witness for the amended C2 at `S = [5]`, `R = [6, 7]`. -/
theorem comm_calls_cover_whole_team_witness :
    ([5] : List RankType) ≠ [] ∧
    (∃ ds, lowerCommunication [5] [6, 7] = Outcome.ok ds ∧
      sendRecvCalls ds =
        ds.flatMap (fun d =>
          (d.root, d.root) :: (d.team.drop 1).map (fun m => (m, d.root)))) :=
  ⟨by decide, comm_calls_cover_whole_team [5] [6, 7] (by decide)⟩

/-- C7 counterexample: lowering an edge with an empty sender list does not
signal a fatal error — the unchecked `size_t` divisions
`receiver_ranks.size() / nbr_srcs` and `% nbr_srcs` divide by zero, which is
undefined behaviour, modelled as the distinguished outcome `Outcome.ub`
(distinct from every `Outcome.fatal _`). -/
theorem empty_sender_ub_counterexample :
    lowerCommunication [] [3] = Outcome.ub := by rfl

/-- C7 amended: lowering a communication edge reaches undefined behaviour
(division by zero, not a signalled fatal error) exactly when the sender set
is empty; the source contains no emptiness check. -/
theorem empty_sender_ub_iff (S R : List RankType) :
    lowerCommunication S R = Outcome.ub ↔ S = [] := by
  unfold lowerCommunication
  rcases h : S.length with _ | n
  · simp [List.length_eq_zero.mp h]
  · simp only [if_neg (Nat.succ_ne_zero n)]
    constructor
    · intro hcontra; exact Outcome.noConfusion hcontra
    · intro hcontra
      rw [hcontra] at h
      exact absurd h.symm (Nat.succ_ne_zero n)

/-- A `c10::IValue` as the executor uses it: either the default-constructed
`None` payload (what `operator[]` inserts for an absent key) or a tensor. -/
inductive IValue where
  | noneIV : IValue
  | tensor : Tensor → IValue
deriving DecidableEq, Repr

/-- The `val_to_IValue_` map, as an association list; an assignment
prepends, and lookup takes the most recent entry. -/
abbrev ValueStore := List (ValId × IValue)

/-- Association-list lookup (`std::unordered_map::find` semantics). -/
def alookup {β : Type} : List (Nat × β) → Nat → Option β
  | [], _ => Option.none
  | (k, v) :: rest, qk => if k = qk then some v else alookup rest qk

/-- `val_to_IValue_[k] = v` (map assignment). -/
def setVal (s : ValueStore) (k : ValId) (v : IValue) : ValueStore :=
  (k, v) :: s

/-- `val_to_IValue_[k]` used as an rvalue: `operator[]` returns the mapped
value, default-inserting `IValue()` (None) when the key is absent. -/
def getDefault (s : ValueStore) (k : ValId) : IValue × ValueStore :=
  match alookup s k with
  | some v => (v, s)
  | Option.none => (IValue.noneIV, (k, IValue.noneIV) :: s)

/-- A `PipelineStage*`: pointer identity, declared input/output values and
the stage descriptor's mesh (`descriptor()->mesh.deviceIndices()`). -/
structure PipelineStage where
  id : Nat
  inputs : List ValId
  outputs : List ValId
  mesh : List DeviceIdxType
deriving DecidableEq, Repr

/-- A `PipelineCommunication*`: producer value, consumer value, and the
meshes of the producing and consuming stages
(`c->in()/out()->as<PipelineVal>()->getStage()->descriptor()->mesh`). -/
structure PipelineCommunication where
  inVal : ValId
  outVal : ValId
  inMesh : List DeviceIdxType
  outMesh : List DeviceIdxType
deriving DecidableEq, Repr

/-- The mutable members of one `PipelineExecutor`, plus two instrumentation
logs (not in the source) recording every `FusionExecutorCache` construction
and every membership computation, so that "computed once, cached" claims
can be stated. -/
structure ExecState where
  val_to_IValue_ : ValueStore
  should_run_ : List (Nat × Bool)
  fec_ : List Nat
  fecConstructions : List Nat
  membershipComputations : List Nat
deriving DecidableEq, Repr

/-- A fresh executor: every container empty. -/
def initState : ExecState :=
  { val_to_IValue_ := [], should_run_ := [], fec_ := [],
    fecConstructions := [], membershipComputations := [] }

/-- External collaborators of the executor: the local device id
(`rankToDiD(rank())`), the device-to-rank mapping, and the two entry points
of the per-stage `FusionExecutorCache` (keyed by stage identity since one
runner is built per stage). -/
structure Runtime where
  localDId : DeviceIdxType
  dIdToRank : DeviceIdxType → RankType
  runFusionWithInputs : Nat → List IValue → List Tensor
  allocOutputSpace : Nat → List IValue → List Tensor

/-- The boolean `shouldRun` resolves to: the cached value if present,
otherwise whether the local device id occurs in the stage's mesh
(`std::count(mesh.deviceIndices(), rankToDiD(rank())) ≠ 0`). -/
def shouldRunBool (localDId : DeviceIdxType) (stage : PipelineStage)
    (cache : List (Nat × Bool)) : Bool :=
  match alookup cache stage.id with
  | some b => b
  | Option.none => decide (localDId ∈ stage.mesh)

/-- `PipelineExecutor::shouldRun` (executor.cpp lines 15-25): on a cache
miss, compute membership of the local device id in the stage's mesh and
cache it (logging the computation); then return the cached boolean. -/
def shouldRun (localDId : DeviceIdxType) (stage : PipelineStage)
    (st : ExecState) : Bool × ExecState :=
  match alookup st.should_run_ stage.id with
  | some b => (b, st)
  | Option.none =>
    let b := decide (localDId ∈ stage.mesh)
    (b, { st with should_run_ := (stage.id, b) :: st.should_run_,
                  membershipComputations :=
                    st.membershipComputations ++ [stage.id] })

/-- The input-gathering loop of `handle(PipelineStage*)` (lines 29-32):
`stage_input_IValues.push_back(val_to_IValue_[input_val])` — `operator[]`
default-inserts `None` for any unbound input and execution proceeds. -/
def gatherInputs : List ValId → ValueStore → List IValue × ValueStore
  | [], s => ([], s)
  | v :: rest, s =>
    let p := getDefault s v
    let rec_ := gatherInputs rest p.2
    (p.1 :: rec_.1, rec_.2)

/-- The output-binding loop of `handle(PipelineStage*)` (lines 49-51):
walks the declared outputs by index; `outputs.at(output_idx)` throws
`std::out_of_range` when the runner returned fewer tensors than the
declared arity, while surplus tensors are silently never read. -/
def bindOutputsLoop : List ValId → List Tensor → ValueStore →
    Outcome Unit × ValueStore
  | [], _, s => (Outcome.ok (), s)
  | _ :: _, [], s => (Outcome.fatal "vector::at out of range", s)
  | v :: vs, t :: ts, s => bindOutputsLoop vs ts (setVal s v (IValue.tensor t))

/-- The tensors the stage produces: real outputs via
`runFusionWithInputs` when `shouldRun(stage)`, placeholders via
`allocOutputSpace` otherwise, both applied to the gathered inputs. -/
def stageOuts (rt : Runtime) (stage : PipelineStage) (st : ExecState) :
    List Tensor :=
  let ivs := (gatherInputs stage.inputs st.val_to_IValue_).1
  if shouldRunBool rt.localDId stage st.should_run_ then
    rt.runFusionWithInputs stage.id ivs
  else
    rt.allocOutputSpace stage.id ivs

/-- `PipelineExecutor::handle(PipelineStage*)` (executor.cpp lines 27-52):
gather the stage's inputs from `val_to_IValue_` (default-inserting for
absentees), lazily construct the stage's `FusionExecutorCache` (logged),
resolve membership via `shouldRun`, run the real or placeholder path, and
bind the declared outputs in order. -/
def handleStage (rt : Runtime) (stage : PipelineStage) (st : ExecState) :
    Outcome Unit × ExecState :=
  let g := gatherInputs stage.inputs st.val_to_IValue_
  let st1 := { st with val_to_IValue_ := g.2 }
  let st2 :=
    if stage.id ∈ st1.fec_ then st1
    else { st1 with fec_ := stage.id :: st1.fec_,
                    fecConstructions := st1.fecConstructions ++ [stage.id] }
  let p := shouldRun rt.localDId stage st2
  let outs :=
    if p.1 then rt.runFusionWithInputs stage.id g.1
    else rt.allocOutputSpace stage.id g.1
  let b := bindOutputsLoop stage.outputs outs p.2.val_to_IValue_
  (b.1, { p.2 with val_to_IValue_ := b.2 })

/-- `PipelineExecutor::handle(PipelineCommunication*)` (executor.cpp lines
59-118): translate both meshes to rank lists, lower to descriptors (`ub`
when the sender mesh is empty), read the producer value with `map::at`
(throws when absent) and `toTensor` (throws on `None`), issue the
send/recv calls (returned as the `ok` payload), and bind the consumer
value unconditionally — the handler never consults the local rank. -/
def handleCommunication (rt : Runtime) (c : PipelineCommunication)
    (st : ExecState) : Outcome (List (RankType × RankType)) × ExecState :=
  let sender_ranks := c.inMesh.map rt.dIdToRank
  let receiver_ranks := c.outMesh.map rt.dIdToRank
  match lowerCommunication sender_ranks receiver_ranks with
  | Outcome.ub => (Outcome.ub, st)
  | Outcome.fatal m => (Outcome.fatal m, st)
  | Outcome.ok communications =>
    match alookup st.val_to_IValue_ c.inVal with
    | Option.none => (Outcome.fatal "map::at key not found", st)
    | some iv =>
      match iv with
      | IValue.noneIV => (Outcome.fatal "toTensor on None", st)
      | IValue.tensor t =>
        (Outcome.ok (sendRecvCalls communications),
         { st with val_to_IValue_ :=
             setVal st.val_to_IValue_ c.outVal (IValue.tensor t) })

/-- A node yielded by the traversal: tagged variant over stage and
communication, replacing the source's `dynamic_cast` dispatch. -/
inductive PipelineNode where
  | stage : PipelineStage → PipelineNode
  | comm : PipelineCommunication → PipelineNode
deriving DecidableEq, Repr

/-- Modelled from the spec: the Pipeline graph itself (its IR classes are
outside the excerpted source).  It exposes ordered global input and output
value identifiers, and `nodes` is the sequence of stage/communication
nodes that `traverseTo(pipeline, outputs)` yields, in a valid topological
order (spec §6, Graph/IR provider contract). -/
structure Pipeline where
  inputs : List ValId
  outputs : List ValId
  nodes : List PipelineNode
deriving DecidableEq, Repr

/-- Dispatch one traversal node to its handler. -/
def handleNode (rt : Runtime) (n : PipelineNode) (st : ExecState) :
    Outcome Unit × ExecState :=
  match n with
  | PipelineNode.stage s => handleStage rt s st
  | PipelineNode.comm c =>
    let p := handleCommunication rt c st
    (match p.1 with
     | Outcome.ok _ => Outcome.ok ()
     | Outcome.fatal m => Outcome.fatal m
     | Outcome.ub => Outcome.ub, p.2)

/-- The traversal driven by `traverseTo` (executor.cpp line 134): handle
each yielded node in order; a thrown error or undefined behaviour aborts
the walk, leaving the executor state as it was at that point. -/
def traverseNodes (rt : Runtime) : List PipelineNode → ExecState →
    Outcome Unit × ExecState
  | [], st => (Outcome.ok (), st)
  | n :: rest, st =>
    let p := handleNode rt n st
    match p.1 with
    | Outcome.ok _ => traverseNodes rt rest p.2
    | Outcome.fatal m => (Outcome.fatal m, p.2)
    | Outcome.ub => (Outcome.ub, p.2)

/-- The global-input binding loop of `runWithInput` (lines 128-131):
pairwise assignment of the declared input values to the given inputs
(the two lists have equal length when this loop runs). -/
def bindGlobalInputs : List ValId → List IValue → ValueStore → ValueStore
  | v :: vs, x :: xs, s => bindGlobalInputs vs xs (setVal s v x)
  | _, _, s => s

/-- The output collection loop of `runWithInput` (lines 137-140):
`val_to_IValue_[output_val].toTensor()` — `operator[]` default-inserts for
a never-bound output and `toTensor()` then throws on the `None` payload. -/
def collectOutputs : List ValId → ValueStore → Outcome (List Tensor) × ValueStore
  | [], s => (Outcome.ok [], s)
  | v :: vs, s =>
    let p := getDefault s v
    match p.1 with
    | IValue.noneIV => (Outcome.fatal "toTensor on None", p.2)
    | IValue.tensor t =>
      let rec_ := collectOutputs vs p.2
      (match rec_.1 with
       | Outcome.ok ts => Outcome.ok (t :: ts)
       | Outcome.fatal m => Outcome.fatal m
       | Outcome.ub => Outcome.ub, rec_.2)

/-- `PipelineExecutor::runWithInput` (executor.cpp lines 120-143): assert
the global input arity (`TORCH_INTERNAL_ASSERT`, before any binding), bind
the global inputs in declared order, traverse the graph, and read the
global outputs back.  Nothing in the function clears `val_to_IValue_` or
either cache. -/
def runWithInput (rt : Runtime) (pipeline : Pipeline)
    (inputs : List IValue) (st : ExecState) :
    Outcome (List Tensor) × ExecState :=
  if inputs.length ≠ pipeline.inputs.length then
    (Outcome.fatal "Wrong number of inputs", st)
  else
    let vs1 := bindGlobalInputs pipeline.inputs inputs st.val_to_IValue_
    let st1 := { st with val_to_IValue_ := vs1 }
    let p := traverseNodes rt pipeline.nodes st1
    match p.1 with
    | Outcome.ok _ =>
      let q := collectOutputs pipeline.outputs p.2.val_to_IValue_
      (q.1, { p.2 with val_to_IValue_ := q.2 })
    | Outcome.fatal m => (Outcome.fatal m, p.2)
    | Outcome.ub => (Outcome.ub, p.2)

/-- C8: membership resolution returns `true` exactly when the local device
id appears in the stage's mesh; on a first query (cache miss) it computes
the membership, caches the boolean keyed by the stage's identity, logs
exactly one membership computation, and any subsequent query returns the
same boolean without touching the state again. -/
theorem shouldRun_membership (did : DeviceIdxType) (stage : PipelineStage)
    (st : ExecState) (h : alookup st.should_run_ stage.id = Option.none) :
    ((shouldRun did stage st).1 = true ↔ did ∈ stage.mesh) ∧
    alookup ((shouldRun did stage st).2).should_run_ stage.id =
      some (decide (did ∈ stage.mesh)) ∧
    ((shouldRun did stage st).2).membershipComputations =
      st.membershipComputations ++ [stage.id] ∧
    shouldRun did stage ((shouldRun did stage st).2) =
      ((shouldRun did stage st).1, (shouldRun did stage st).2) := by
  simp [shouldRun, h, alookup]

/-- A concrete stage used by witnesses: identity 1, mesh `{0, 3}`. -/
def stageA : PipelineStage :=
  { id := 1, inputs := [], outputs := [], mesh := [0, 3] }

/-- Witness for C8: device 0 queries `stageA` on a fresh executor. -/
theorem shouldRun_membership_witness :
    alookup initState.should_run_ stageA.id = Option.none ∧
    (((shouldRun 0 stageA initState).1 = true ↔ (0 : DeviceIdxType) ∈ stageA.mesh) ∧
    alookup ((shouldRun 0 stageA initState).2).should_run_ stageA.id =
      some (decide ((0 : DeviceIdxType) ∈ stageA.mesh)) ∧
    ((shouldRun 0 stageA initState).2).membershipComputations =
      initState.membershipComputations ++ [stageA.id] ∧
    shouldRun 0 stageA ((shouldRun 0 stageA initState).2) =
      ((shouldRun 0 stageA initState).1, (shouldRun 0 stageA initState).2)) :=
  ⟨by decide, shouldRun_membership 0 stageA initState (by decide)⟩

/-- C9: a `runWithInput` call whose input list length differs from the
graph's declared global input count fails with the
`TORCH_INTERNAL_ASSERT` message before anything is bound: the executor
state — the ValueStore included — is returned exactly as it was. -/
theorem run_input_arity_mismatch (rt : Runtime) (pipeline : Pipeline)
    (inputs : List IValue) (st : ExecState)
    (h : inputs.length ≠ pipeline.inputs.length) :
    runWithInput rt pipeline inputs st =
      (Outcome.fatal "Wrong number of inputs", st) := by
  simp [runWithInput, h]

/-- A concrete runtime used by witnesses: local device 0, identity
device-to-rank mapping, runner returning a single tensor. -/
def rtA : Runtime :=
  { localDId := 0, dIdToRank := fun d => d,
    runFusionWithInputs := fun _ _ => [0],
    allocOutputSpace := fun _ _ => [0] }

/-- A concrete pipeline declaring one global input and no nodes. -/
def pipeA : Pipeline := { inputs := [0], outputs := [0], nodes := [] }

/-- Witness for C9: zero inputs against a one-input pipeline. -/
theorem run_input_arity_mismatch_witness :
    ([] : List IValue).length ≠ pipeA.inputs.length ∧
    runWithInput rtA pipeA [] initState =
      (Outcome.fatal "Wrong number of inputs", initState) :=
  ⟨by decide, run_input_arity_mismatch rtA pipeA [] initState (by decide)⟩

theorem alookup_isSome_cons {β : Type} (k : Nat) (w : β)
    (s : List (Nat × β)) (v : Nat) (h : (alookup s v).isSome) :
    (alookup ((k, w) :: s) v).isSome := by
  by_cases hkv : k = v <;> simp [alookup, hkv, h]

theorem getDefault_preserves (s : ValueStore) (u v : ValId) (w : IValue)
    (h : alookup s v = some w) : alookup (getDefault s u).2 v = some w := by
  unfold getDefault
  rcases hu : alookup s u with _ | x
  · by_cases hvu : u = v
    · rw [hvu] at hu; rw [hu] at h; exact Option.noConfusion h
    · simp [alookup, hvu, h]
  · simpa using h

theorem getDefault_other (s : ValueStore) (u v : ValId) (hvu : u ≠ v) :
    alookup (getDefault s u).2 v = alookup s v := by
  unfold getDefault
  rcases hu : alookup s u with _ | x
  · simp [alookup, hvu]
  · simp

theorem gatherInputs_preserves :
    ∀ (ins : List ValId) (s : ValueStore) (v : ValId) (w : IValue),
      alookup s v = some w → alookup (gatherInputs ins s).2 v = some w := by
  intro ins
  induction ins with
  | nil => intro s v w h; exact h
  | cons u rest ih =>
    intro s v w h
    exact ih _ v w (getDefault_preserves s u v w h)

/-- A declared input with no binding is gathered as the default `None`
payload, and the `operator[]` access inserts that `None` into the store. -/
theorem gatherInputs_missing :
    ∀ (ins : List ValId) (s : ValueStore) (v : ValId),
      v ∈ ins → alookup s v = Option.none →
      alookup (gatherInputs ins s).2 v = some IValue.noneIV ∧
      IValue.noneIV ∈ (gatherInputs ins s).1 := by
  intro ins
  induction ins with
  | nil => intro s v hv _; exact absurd hv (List.not_mem_nil v)
  | cons u rest ih =>
    intro s v hv hmiss
    by_cases hvu : u = v
    · subst hvu
      have hdef : getDefault s u = (IValue.noneIV, (u, IValue.noneIV) :: s) := by
        unfold getDefault; rw [hmiss]
      have hstep2 : (gatherInputs (u :: rest) s).2 =
          (gatherInputs rest (getDefault s u).2).2 := rfl
      have hstep1 : (gatherInputs (u :: rest) s).1 =
          (getDefault s u).1 :: (gatherInputs rest (getDefault s u).2).1 := rfl
      constructor
      · rw [hstep2, hdef]
        apply gatherInputs_preserves
        simp [alookup]
      · rw [hstep1, hdef]
        exact List.mem_cons_self _ _
    · rcases List.mem_cons.mp hv with h | h
      · exact absurd h.symm hvu
      · have hmiss' : alookup (getDefault s u).2 v = Option.none := by
          rw [getDefault_other s u v hvu]; exact hmiss
        have := ih (getDefault s u).2 v h hmiss'
        exact ⟨by simpa [gatherInputs] using this.1,
          by simp [gatherInputs]; exact Or.inr this.2⟩

theorem bindOutputsLoop_fst :
    ∀ (ids : List ValId) (outs : List Tensor) (s : ValueStore),
      (bindOutputsLoop ids outs s).1 =
        if outs.length < ids.length then Outcome.fatal "vector::at out of range"
        else Outcome.ok () := by
  intro ids
  induction ids with
  | nil => intro outs s; simp [bindOutputsLoop]
  | cons v vs ih =>
    intro outs s
    cases outs with
    | nil => simp [bindOutputsLoop]
    | cons t ts => simp [bindOutputsLoop, ih, Nat.succ_lt_succ_iff]

/-- The outcome of `handle(PipelineStage*)` is exactly the outcome of the
output-binding loop on the runner's tensors. -/
theorem handleStage_fst (rt : Runtime) (stage : PipelineStage) (st : ExecState) :
    (handleStage rt stage st).1 =
      (bindOutputsLoop stage.outputs (stageOuts rt stage st)
        ((gatherInputs stage.inputs st.val_to_IValue_).2)).1 := by
  unfold handleStage stageOuts shouldRun shouldRunBool
  rcases hcc : alookup st.should_run_ stage.id with _ | b <;>
    by_cases hf : stage.id ∈ st.fec_ <;>
      simp [hcc, hf]

/-- C3 counterexample: a stage whose sole declared input (value 5) has no
binding in a fresh executor does not fail fatally — `operator[]`
default-inserts a `None` for value 5, the runner is invoked with that
default (its output, tensor 3, gets bound to the declared output value 6),
and the handler returns normally. -/
theorem stage_missing_input_proceeds_counterexample :
    handleStage
        { localDId := 0, dIdToRank := fun d => d,
          runFusionWithInputs := fun _ _ => [3],
          allocOutputSpace := fun _ _ => [4] }
        { id := 2, inputs := [5], outputs := [6], mesh := [0] }
        initState =
      (Outcome.ok (),
       { val_to_IValue_ := [(6, IValue.tensor 3), (5, IValue.noneIV)],
         should_run_ := [(2, true)], fec_ := [2],
         fecConstructions := [2], membershipComputations := [2] }) := by
  decide

/-- C3 amended: when a declared input value has no binding, stage
processing does not fail at this layer: the missing input is
default-constructed as a `None` value, that `None` is inserted into the
ValueStore and passed to the runner, and — provided the runner returns at
least the declared output arity — the handler returns normally. -/
theorem stage_missing_input_defaults (rt : Runtime) (stage : PipelineStage)
    (st : ExecState) (v : ValId) (hv : v ∈ stage.inputs)
    (hmiss : alookup st.val_to_IValue_ v = Option.none) :
    alookup (gatherInputs stage.inputs st.val_to_IValue_).2 v =
      some IValue.noneIV ∧
    IValue.noneIV ∈ (gatherInputs stage.inputs st.val_to_IValue_).1 ∧
    (stage.outputs.length ≤ (stageOuts rt stage st).length →
      (handleStage rt stage st).1 = Outcome.ok ()) := by
  obtain ⟨h1, h2⟩ := gatherInputs_missing stage.inputs st.val_to_IValue_ v hv hmiss
  refine ⟨h1, h2, fun harity => ?_⟩
  rw [handleStage_fst, bindOutputsLoop_fst, if_neg (Nat.not_lt.mpr harity)]

/-- Witness for the amended C3. -/
theorem stage_missing_input_defaults_witness :
    (5 : ValId) ∈ ([5] : List ValId) ∧
    alookup initState.val_to_IValue_ 5 = Option.none ∧
    (alookup (gatherInputs ([5] : List ValId) initState.val_to_IValue_).2 5 =
      some IValue.noneIV ∧
    IValue.noneIV ∈ (gatherInputs ([5] : List ValId) initState.val_to_IValue_).1 ∧
    (([6] : List ValId).length ≤
        (stageOuts
          { localDId := 0, dIdToRank := fun d => d,
            runFusionWithInputs := fun _ _ => [3],
            allocOutputSpace := fun _ _ => [4] }
          { id := 2, inputs := [5], outputs := [6], mesh := [0] }
          initState).length →
      (handleStage
          { localDId := 0, dIdToRank := fun d => d,
            runFusionWithInputs := fun _ _ => [3],
            allocOutputSpace := fun _ _ => [4] }
          { id := 2, inputs := [5], outputs := [6], mesh := [0] }
          initState).1 = Outcome.ok ())) :=
  ⟨by decide, by decide,
    stage_missing_input_defaults
      { localDId := 0, dIdToRank := fun d => d,
        runFusionWithInputs := fun _ _ => [3],
        allocOutputSpace := fun _ _ => [4] }
      { id := 2, inputs := [5], outputs := [6], mesh := [0] }
      initState 5 (by decide) (by decide)⟩

/-- C6 amended: processing a stage is fatal exactly when the runner returns
fewer tensors than the stage's declared output arity
(`std::vector::at` out of range); when it returns the declared arity or
more, the handler returns normally — surplus outputs are silently ignored,
not an error. -/
theorem stage_output_arity (rt : Runtime) (stage : PipelineStage)
    (st : ExecState) :
    ((stageOuts rt stage st).length < stage.outputs.length →
      (handleStage rt stage st).1 = Outcome.fatal "vector::at out of range") ∧
    (stage.outputs.length ≤ (stageOuts rt stage st).length →
      (handleStage rt stage st).1 = Outcome.ok ()) := by
  constructor
  · intro h
    rw [handleStage_fst, bindOutputsLoop_fst, if_pos h]
  · intro h
    rw [handleStage_fst, bindOutputsLoop_fst, if_neg (Nat.not_lt.mpr h)]

/-- C6 counterexample: a stage with declared output arity 1 whose runner
returns two tensors does not fail — the handler returns normally and binds
only the first tensor, silently dropping the surplus; so a mismatch "in
either direction" is not fatal. -/
theorem stage_surplus_outputs_ok_counterexample :
    handleStage
        { localDId := 0, dIdToRank := fun d => d,
          runFusionWithInputs := fun _ _ => [3, 4],
          allocOutputSpace := fun _ _ => [3, 4] }
        { id := 3, inputs := [], outputs := [6], mesh := [0] }
        initState =
      (Outcome.ok (),
       { val_to_IValue_ := [(6, IValue.tensor 3)],
         should_run_ := [(3, true)], fec_ := [3],
         fecConstructions := [3], membershipComputations := [3] }) := by
  decide

/-- Witness for the amended C6: the shortfall direction is fatal (runner
returning zero tensors against arity 1) and the surplus direction returns
normally (runner returning two tensors against arity 1). -/
theorem stage_output_arity_witness :
    (handleStage
        { localDId := 0, dIdToRank := fun d => d,
          runFusionWithInputs := fun _ _ => [],
          allocOutputSpace := fun _ _ => [] }
        { id := 4, inputs := [], outputs := [6], mesh := [0] }
        initState).1 = Outcome.fatal "vector::at out of range" ∧
    (handleStage
        { localDId := 0, dIdToRank := fun d => d,
          runFusionWithInputs := fun _ _ => [3, 4],
          allocOutputSpace := fun _ _ => [3, 4] }
        { id := 3, inputs := [], outputs := [6], mesh := [0] }
        initState).1 = Outcome.ok () :=
  ⟨(stage_output_arity
      { localDId := 0, dIdToRank := fun d => d,
        runFusionWithInputs := fun _ _ => [],
        allocOutputSpace := fun _ _ => [] }
      { id := 4, inputs := [], outputs := [6], mesh := [0] }
      initState).1 (by decide),
   (stage_output_arity
      { localDId := 0, dIdToRank := fun d => d,
        runFusionWithInputs := fun _ _ => [3, 4],
        allocOutputSpace := fun _ _ => [3, 4] }
      { id := 3, inputs := [], outputs := [6], mesh := [0] }
      initState).2 (by decide)⟩

/-- C5 counterexample: the communication handler never consults the local
rank (the embedding's `Runtime` here has local device 2, a rank that is
neither in the sender mesh `[0]` nor the receiver mesh `[1]` under the
identity device-to-rank mapping), yet after the call the consumer value 11
is bound to the producer's tensor — refuting "if the rank is neither a
sender nor a receiver then the consumer value is not bound by this call". -/
theorem comm_binds_on_nonmember_counterexample :
    handleCommunication
        { localDId := 2, dIdToRank := fun d => d,
          runFusionWithInputs := fun _ _ => [0],
          allocOutputSpace := fun _ _ => [0] }
        { inVal := 10, outVal := 11, inMesh := [0], outMesh := [1] }
        { initState with val_to_IValue_ := [(10, IValue.tensor 7)] } =
      (Outcome.ok [(0, 0), (1, 0)],
       { initState with
           val_to_IValue_ := [(11, IValue.tensor 7), (10, IValue.tensor 7)] }) := by
  decide

/-- C5 amended: transfer execution binds the edge's consumer value to the
tensor read from the producer value unconditionally — for every runtime,
hence on every rank, whether or not that rank is a sender or receiver of
the edge (provided the producer value is bound to a tensor and the sender
mesh is non-empty, without which the call aborts before the binding). -/
theorem comm_binds_consumer_unconditionally (rt : Runtime)
    (c : PipelineCommunication) (st : ExecState) (t : Tensor)
    (hS : c.inMesh ≠ [])
    (hin : alookup st.val_to_IValue_ c.inVal = some (IValue.tensor t)) :
    ∃ calls, handleCommunication rt c st =
      (Outcome.ok calls,
       { st with val_to_IValue_ :=
           setVal st.val_to_IValue_ c.outVal (IValue.tensor t) }) := by
  have hlen : (c.inMesh.map rt.dIdToRank).length ≠ 0 := by
    rw [List.length_map]
    exact fun h => hS (List.length_eq_zero.mp h)
  have hlow : lowerCommunication (c.inMesh.map rt.dIdToRank)
      (c.outMesh.map rt.dIdToRank) =
      Outcome.ok (mkDescriptors (c.outMesh.map rt.dIdToRank)
        ((c.outMesh.map rt.dIdToRank).length / (c.inMesh.map rt.dIdToRank).length)
        ((c.outMesh.map rt.dIdToRank).length % (c.inMesh.map rt.dIdToRank).length)
        (c.inMesh.map rt.dIdToRank) 0 0) := by
    simp [lowerCommunication, hlen, hS]
  refine ⟨sendRecvCalls (mkDescriptors (c.outMesh.map rt.dIdToRank)
      ((c.outMesh.map rt.dIdToRank).length / (c.inMesh.map rt.dIdToRank).length)
      ((c.outMesh.map rt.dIdToRank).length % (c.inMesh.map rt.dIdToRank).length)
      (c.inMesh.map rt.dIdToRank) 0 0), ?_⟩
  unfold handleCommunication
  simp only [hlow, hin]

/-- Witness for the amended C5 at the counterexample's concrete inputs. -/
theorem comm_binds_consumer_unconditionally_witness :
    ([0] : List DeviceIdxType) ≠ [] ∧
    alookup ([(10, IValue.tensor 7)] : ValueStore) 10 = some (IValue.tensor 7) ∧
    (∃ calls, handleCommunication
        { localDId := 2, dIdToRank := fun d => d,
          runFusionWithInputs := fun _ _ => [0],
          allocOutputSpace := fun _ _ => [0] }
        { inVal := 10, outVal := 11, inMesh := [0], outMesh := [1] }
        { initState with val_to_IValue_ := [(10, IValue.tensor 7)] } =
      (Outcome.ok calls,
       { ({ initState with val_to_IValue_ := [(10, IValue.tensor 7)] } : ExecState) with
           val_to_IValue_ :=
             setVal ({ initState with
               val_to_IValue_ := [(10, IValue.tensor 7)] } : ExecState).val_to_IValue_
               11 (IValue.tensor 7) })) :=
  ⟨by decide, by decide,
    comm_binds_consumer_unconditionally
      { localDId := 2, dIdToRank := fun d => d,
        runFusionWithInputs := fun _ _ => [0],
        allocOutputSpace := fun _ _ => [0] }
      { inVal := 10, outVal := 11, inMesh := [0], outMesh := [1] }
      { initState with val_to_IValue_ := [(10, IValue.tensor 7)] }
      7 (by decide) (by decide)⟩

theorem handleStage_fec (rt : Runtime) (stage : PipelineStage) (st : ExecState) :
    (handleStage rt stage st).2.fec_ =
      if stage.id ∈ st.fec_ then st.fec_ else stage.id :: st.fec_ := by
  unfold handleStage shouldRun
  rcases hcc : alookup st.should_run_ stage.id with _ | b <;>
    by_cases hf : stage.id ∈ st.fec_ <;> simp [hcc, hf]

theorem handleStage_fecConstructions (rt : Runtime) (stage : PipelineStage)
    (st : ExecState) :
    (handleStage rt stage st).2.fecConstructions =
      if stage.id ∈ st.fec_ then st.fecConstructions
      else st.fecConstructions ++ [stage.id] := by
  unfold handleStage shouldRun
  rcases hcc : alookup st.should_run_ stage.id with _ | b <;>
    by_cases hf : stage.id ∈ st.fec_ <;> simp [hcc, hf]

theorem handleStage_should_run (rt : Runtime) (stage : PipelineStage)
    (st : ExecState) :
    (handleStage rt stage st).2.should_run_ =
      if (alookup st.should_run_ stage.id).isSome then st.should_run_
      else (stage.id, decide (rt.localDId ∈ stage.mesh)) :: st.should_run_ := by
  unfold handleStage shouldRun
  rcases hcc : alookup st.should_run_ stage.id with _ | b <;>
    by_cases hf : stage.id ∈ st.fec_ <;> simp [hcc, hf]

theorem handleStage_memlog (rt : Runtime) (stage : PipelineStage)
    (st : ExecState) :
    (handleStage rt stage st).2.membershipComputations =
      if (alookup st.should_run_ stage.id).isSome then st.membershipComputations
      else st.membershipComputations ++ [stage.id] := by
  unfold handleStage shouldRun
  rcases hcc : alookup st.should_run_ stage.id with _ | b <;>
    by_cases hf : stage.id ∈ st.fec_ <;> simp [hcc, hf]

theorem handleStage_store (rt : Runtime) (stage : PipelineStage)
    (st : ExecState) :
    (handleStage rt stage st).2.val_to_IValue_ =
      (bindOutputsLoop stage.outputs (stageOuts rt stage st)
        ((gatherInputs stage.inputs st.val_to_IValue_).2)).2 := by
  unfold handleStage stageOuts shouldRun shouldRunBool
  rcases hcc : alookup st.should_run_ stage.id with _ | b <;>
    by_cases hf : stage.id ∈ st.fec_ <;> simp [hcc, hf]

theorem handleCommunication_caches (rt : Runtime) (c : PipelineCommunication)
    (st : ExecState) :
    (handleCommunication rt c st).2.should_run_ = st.should_run_ ∧
    (handleCommunication rt c st).2.fec_ = st.fec_ ∧
    (handleCommunication rt c st).2.fecConstructions = st.fecConstructions ∧
    (handleCommunication rt c st).2.membershipComputations =
      st.membershipComputations := by
  cases hl : lowerCommunication (List.map rt.dIdToRank c.inMesh)
      (List.map rt.dIdToRank c.outMesh) with
  | ub => simp [handleCommunication, hl]
  | fatal m => simp [handleCommunication, hl]
  | ok ds =>
    cases hv : alookup st.val_to_IValue_ c.inVal with
    | none => simp [handleCommunication, hl, hv]
    | some iv =>
      cases iv with
      | noneIV => simp [handleCommunication, hl, hv]
      | tensor t => simp [handleCommunication, hl, hv]

theorem handleCommunication_store_preserves (rt : Runtime)
    (c : PipelineCommunication) (st : ExecState) (v : ValId)
    (h : (alookup st.val_to_IValue_ v).isSome) :
    (alookup (handleCommunication rt c st).2.val_to_IValue_ v).isSome := by
  cases hl : lowerCommunication (List.map rt.dIdToRank c.inMesh)
      (List.map rt.dIdToRank c.outMesh) with
  | ub => simpa [handleCommunication, hl] using h
  | fatal m => simpa [handleCommunication, hl] using h
  | ok ds =>
    cases hv : alookup st.val_to_IValue_ c.inVal with
    | none => simpa [handleCommunication, hl, hv] using h
    | some iv =>
      cases iv with
      | noneIV => simpa [handleCommunication, hl, hv] using h
      | tensor t =>
        simp only [handleCommunication, hl, hv]
        exact alookup_isSome_cons _ _ _ _ h

theorem bindOutputsLoop_preserves :
    ∀ (ids : List ValId) (outs : List Tensor) (s : ValueStore) (v : ValId),
      (alookup s v).isSome → (alookup (bindOutputsLoop ids outs s).2 v).isSome := by
  intro ids
  induction ids with
  | nil => intro outs s v h; exact h
  | cons u us ih =>
    intro outs s v h
    cases outs with
    | nil => exact h
    | cons t ts => exact ih ts _ v (alookup_isSome_cons _ _ _ _ h)

theorem gatherInputs_isSome (ins : List ValId) (s : ValueStore) (v : ValId)
    (h : (alookup s v).isSome) :
    (alookup (gatherInputs ins s).2 v).isSome := by
  obtain ⟨w, hw⟩ := Option.isSome_iff_exists.mp h
  rw [gatherInputs_preserves ins s v w hw]
  rfl

theorem handleStage_store_preserves (rt : Runtime) (stage : PipelineStage)
    (st : ExecState) (v : ValId)
    (h : (alookup st.val_to_IValue_ v).isSome) :
    (alookup (handleStage rt stage st).2.val_to_IValue_ v).isSome := by
  rw [handleStage_store]
  exact bindOutputsLoop_preserves _ _ _ v (gatherInputs_isSome _ _ v h)

/-- "This stage has been processed": its runner is in the runner cache and
its membership boolean is in the membership cache. -/
def stageCached (st : ExecState) (s : PipelineStage) : Prop :=
  s.id ∈ st.fec_ ∧ (alookup st.should_run_ s.id).isSome

/-- Every stage node in the list has been processed. -/
def nodesCached (st : ExecState) (nodes : List PipelineNode) : Prop :=
  ∀ s : PipelineStage, PipelineNode.stage s ∈ nodes → stageCached st s

theorem handleStage_caches_self (rt : Runtime) (s : PipelineStage)
    (st : ExecState) : stageCached (handleStage rt s st).2 s := by
  constructor
  · rw [handleStage_fec]
    by_cases hf : s.id ∈ st.fec_
    · simp [hf]
    · simp [hf]
  · rw [handleStage_should_run]
    by_cases hc : (alookup st.should_run_ s.id).isSome
    · simp [hc]
    · simp [hc, alookup]

theorem handleStage_cache_mono (rt : Runtime) (s : PipelineStage)
    (st : ExecState) (x : PipelineStage) (h : stageCached st x) :
    stageCached (handleStage rt s st).2 x := by
  obtain ⟨h1, h2⟩ := h
  constructor
  · rw [handleStage_fec]
    by_cases hf : s.id ∈ st.fec_ <;> simp [hf, h1]
  · rw [handleStage_should_run]
    by_cases hc : (alookup st.should_run_ s.id).isSome
    · simpa [hc] using h2
    · simp only [hc, if_neg Bool.false_ne_true, if_false]
      exact alookup_isSome_cons _ _ _ _ h2

theorem handleStage_no_new_work (rt : Runtime) (s : PipelineStage)
    (st : ExecState) (h : stageCached st s) :
    (handleStage rt s st).2.fecConstructions = st.fecConstructions ∧
    (handleStage rt s st).2.membershipComputations =
      st.membershipComputations := by
  obtain ⟨h1, h2⟩ := h
  exact ⟨by rw [handleStage_fecConstructions, if_pos h1],
    by rw [handleStage_memlog, if_pos h2]⟩

theorem handleNode_cache_mono (rt : Runtime) (n : PipelineNode)
    (st : ExecState) (x : PipelineStage) (h : stageCached st x) :
    stageCached (handleNode rt n st).2 x := by
  cases n with
  | stage s => exact handleStage_cache_mono rt s st x h
  | comm c =>
    obtain ⟨hs, hf, _, _⟩ := handleCommunication_caches rt c st
    refine ⟨?_, ?_⟩
    · show x.id ∈ (handleCommunication rt c st).2.fec_
      rw [hf]; exact h.1
    · show (alookup (handleCommunication rt c st).2.should_run_ x.id).isSome
      rw [hs]; exact h.2

theorem handleNode_store_preserves (rt : Runtime) (n : PipelineNode)
    (st : ExecState) (v : ValId)
    (h : (alookup st.val_to_IValue_ v).isSome) :
    (alookup (handleNode rt n st).2.val_to_IValue_ v).isSome := by
  cases n with
  | stage s => exact handleStage_store_preserves rt s st v h
  | comm c =>
    show (alookup (handleCommunication rt c st).2.val_to_IValue_ v).isSome
    exact handleCommunication_store_preserves rt c st v h

theorem handleNode_no_new_work (rt : Runtime) (n : PipelineNode)
    (st : ExecState)
    (h : ∀ s : PipelineStage, n = PipelineNode.stage s → stageCached st s) :
    (handleNode rt n st).2.fecConstructions = st.fecConstructions ∧
    (handleNode rt n st).2.membershipComputations =
      st.membershipComputations := by
  cases n with
  | stage s => exact handleStage_no_new_work rt s st (h s rfl)
  | comm c =>
    obtain ⟨_, _, hfc, hm⟩ := handleCommunication_caches rt c st
    exact ⟨hfc, hm⟩

theorem traverseNodes_cache_mono (rt : Runtime) :
    ∀ (nodes : List PipelineNode) (st : ExecState) (x : PipelineStage),
      stageCached st x → stageCached (traverseNodes rt nodes st).2 x := by
  intro nodes
  induction nodes with
  | nil => intro st x h; exact h
  | cons n rest ih =>
    intro st x h
    have h1 := handleNode_cache_mono rt n st x h
    cases hp : (handleNode rt n st).1 with
    | ok u => simp only [traverseNodes, hp]; exact ih _ x h1
    | fatal m => simp only [traverseNodes, hp]; exact h1
    | ub => simp only [traverseNodes, hp]; exact h1

theorem traverseNodes_store_preserves (rt : Runtime) :
    ∀ (nodes : List PipelineNode) (st : ExecState) (v : ValId),
      (alookup st.val_to_IValue_ v).isSome →
      (alookup (traverseNodes rt nodes st).2.val_to_IValue_ v).isSome := by
  intro nodes
  induction nodes with
  | nil => intro st v h; exact h
  | cons n rest ih =>
    intro st v h
    have h1 := handleNode_store_preserves rt n st v h
    cases hp : (handleNode rt n st).1 with
    | ok u => simp only [traverseNodes, hp]; exact ih _ v h1
    | fatal m => simp only [traverseNodes, hp]; exact h1
    | ub => simp only [traverseNodes, hp]; exact h1

theorem traverseNodes_all_cached (rt : Runtime) :
    ∀ (nodes : List PipelineNode) (st : ExecState),
      (traverseNodes rt nodes st).1 = Outcome.ok () →
      nodesCached (traverseNodes rt nodes st).2 nodes := by
  intro nodes
  induction nodes with
  | nil => intro st _ s hs; exact absurd hs (List.not_mem_nil _)
  | cons n rest ih =>
    intro st hok s hs
    cases hp : (handleNode rt n st).1 with
    | ok u =>
      simp only [traverseNodes, hp] at hok ⊢
      rcases List.mem_cons.mp hs with he | hmem
      · subst he
        exact traverseNodes_cache_mono rt rest _ s
          (handleStage_caches_self rt s st)
      · exact ih _ hok s hmem
    | fatal m =>
      simp only [traverseNodes, hp] at hok
      exact Outcome.noConfusion hok
    | ub =>
      simp only [traverseNodes, hp] at hok
      exact Outcome.noConfusion hok

theorem traverseNodes_no_new_work (rt : Runtime) :
    ∀ (nodes : List PipelineNode) (st : ExecState), nodesCached st nodes →
      (traverseNodes rt nodes st).2.fecConstructions = st.fecConstructions ∧
      (traverseNodes rt nodes st).2.membershipComputations =
        st.membershipComputations := by
  intro nodes
  induction nodes with
  | nil => intro st _; exact ⟨rfl, rfl⟩
  | cons n rest ih =>
    intro st hc
    have hn := handleNode_no_new_work rt n st
      (fun s hs => hc s (List.mem_cons.mpr (Or.inl hs.symm)))
    have hc' : nodesCached (handleNode rt n st).2 rest :=
      fun s hs => handleNode_cache_mono rt n st s (hc s (List.mem_cons_of_mem n hs))
    cases hp : (handleNode rt n st).1 with
    | ok u =>
      simp only [traverseNodes, hp]
      have hrest := ih _ hc'
      exact ⟨hrest.1.trans hn.1, hrest.2.trans hn.2⟩
    | fatal m => simp only [traverseNodes, hp]; exact hn
    | ub => simp only [traverseNodes, hp]; exact hn

theorem bindGlobalInputs_preserves :
    ∀ (ids : List ValId) (xs : List IValue) (s : ValueStore) (v : ValId),
      (alookup s v).isSome → (alookup (bindGlobalInputs ids xs s) v).isSome := by
  intro ids
  induction ids with
  | nil => intro xs s v h; cases xs <;> exact h
  | cons u us ih =>
    intro xs s v h
    cases xs with
    | nil => exact h
    | cons x xs' => exact ih xs' _ v (alookup_isSome_cons _ _ _ _ h)

theorem collectOutputs_preserves :
    ∀ (ids : List ValId) (s : ValueStore) (v : ValId),
      (alookup s v).isSome → (alookup (collectOutputs ids s).2 v).isSome := by
  intro ids
  induction ids with
  | nil => intro s v h; exact h
  | cons u us ih =>
    intro s v h
    have h1 : (alookup (getDefault s u).2 v).isSome := by
      by_cases hvu : u = v
      · subst hvu
        unfold getDefault
        rcases hu : alookup s u with _ | w
        · simp [alookup]
        · simp [hu]
      · rw [getDefault_other s u v hvu]; exact h
    cases hg : (getDefault s u).1 with
    | noneIV => simp only [collectOutputs, hg]; exact h1
    | tensor t => simp only [collectOutputs, hg]; exact ih _ v h1

/-- `runWithInput` never erases a ValueStore binding: any value bound
before the call is still bound (to some value) in the returned executor
state.  In particular no reset of the store happens anywhere in a call. -/
theorem runWithInput_store_preserves (rt : Runtime) (p : Pipeline)
    (inputs : List IValue) (st : ExecState) (v : ValId)
    (h : (alookup st.val_to_IValue_ v).isSome) :
    (alookup (runWithInput rt p inputs st).2.val_to_IValue_ v).isSome := by
  unfold runWithInput
  by_cases harr : inputs.length ≠ p.inputs.length
  · simp only [if_pos harr]; exact h
  · simp only [if_neg harr]
    have h1 := bindGlobalInputs_preserves p.inputs inputs st.val_to_IValue_ v h
    have h2 := traverseNodes_store_preserves rt p.nodes
      { st with val_to_IValue_ :=
          bindGlobalInputs p.inputs inputs st.val_to_IValue_ } v h1
    cases ht : (traverseNodes rt p.nodes
        { st with val_to_IValue_ :=
            bindGlobalInputs p.inputs inputs st.val_to_IValue_ }).1 with
    | ok u => simp only [ht]; exact collectOutputs_preserves p.outputs _ v h2
    | fatal m => simp only [ht]; exact h2
    | ub => simp only [ht]; exact h2

/-- If every stage node of the pipeline is already cached, a `runWithInput`
call constructs no runner and computes no membership: both instrumentation
logs are returned unchanged. -/
theorem runWithInput_no_new_work (rt : Runtime) (p : Pipeline)
    (inputs : List IValue) (st : ExecState) (h : nodesCached st p.nodes) :
    (runWithInput rt p inputs st).2.fecConstructions = st.fecConstructions ∧
    (runWithInput rt p inputs st).2.membershipComputations =
      st.membershipComputations := by
  unfold runWithInput
  by_cases harr : inputs.length ≠ p.inputs.length
  · simp only [if_pos harr]; exact ⟨trivial, trivial⟩
  · simp only [if_neg harr]
    have h1 : nodesCached
        { st with val_to_IValue_ :=
            bindGlobalInputs p.inputs inputs st.val_to_IValue_ } p.nodes := h
    have h2 := traverseNodes_no_new_work rt p.nodes
      { st with val_to_IValue_ :=
          bindGlobalInputs p.inputs inputs st.val_to_IValue_ } h1
    cases ht : (traverseNodes rt p.nodes
        { st with val_to_IValue_ :=
            bindGlobalInputs p.inputs inputs st.val_to_IValue_ }).1 with
    | ok u => simp only [ht]; exact h2
    | fatal m => simp only [ht]; exact h2
    | ub => simp only [ht]; exact h2

/-- After a `runWithInput` call that returns normally, every stage node of
the pipeline is cached in the returned executor state. -/
theorem runWithInput_all_cached (rt : Runtime) (p : Pipeline)
    (inputs : List IValue) (st : ExecState) (ts : List Tensor)
    (h : (runWithInput rt p inputs st).1 = Outcome.ok ts) :
    nodesCached (runWithInput rt p inputs st).2 p.nodes := by
  unfold runWithInput at h ⊢
  by_cases harr : inputs.length ≠ p.inputs.length
  · rw [if_pos harr] at h
    exact Outcome.noConfusion h
  · simp only [if_neg harr] at h ⊢
    cases ht : (traverseNodes rt p.nodes
        { st with val_to_IValue_ :=
            bindGlobalInputs p.inputs inputs st.val_to_IValue_ }).1 with
    | ok u =>
      cases u
      simp only [ht]
      have hall := traverseNodes_all_cached rt p.nodes
        { st with val_to_IValue_ :=
            bindGlobalInputs p.inputs inputs st.val_to_IValue_ } ht
      intro s hs
      exact hall s hs
    | fatal m =>
      rw [ht] at h
      exact Outcome.noConfusion h
    | ub =>
      rw [ht] at h
      exact Outcome.noConfusion h

/-- C4 amended: across two successive `runWithInput` calls on the same
executor the ValueStore is NOT reset — every binding present before the
first call is still present in the executor state the second call starts
from (the source never clears `val_to_IValue_`) — while the membership and
runner caches persist exactly as the claim says: provided the first call
returned normally, the second call constructs no `FusionExecutorCache` and
computes no membership for any stage of the pipeline. -/
theorem run_twice_caches_persist_store_not_reset (rt : Runtime) (p : Pipeline)
    (inputs1 inputs2 : List IValue) (st : ExecState) (ts : List Tensor)
    (h1 : (runWithInput rt p inputs1 st).1 = Outcome.ok ts) :
    (∀ v, (alookup st.val_to_IValue_ v).isSome →
      (alookup ((runWithInput rt p inputs1 st).2).val_to_IValue_ v).isSome) ∧
    (runWithInput rt p inputs2
        ((runWithInput rt p inputs1 st).2)).2.fecConstructions =
      ((runWithInput rt p inputs1 st).2).fecConstructions ∧
    (runWithInput rt p inputs2
        ((runWithInput rt p inputs1 st).2)).2.membershipComputations =
      ((runWithInput rt p inputs1 st).2).membershipComputations := by
  have hall := runWithInput_all_cached rt p inputs1 st ts h1
  have hwork := runWithInput_no_new_work rt p inputs2
    ((runWithInput rt p inputs1 st).2) hall
  exact ⟨fun v hv => runWithInput_store_preserves rt p inputs1 st v hv,
    hwork.1, hwork.2⟩

/-- A concrete one-stage pipeline: one global input (value 0), one stage
producing value 2 from value 0 on device 0's mesh, global output value 2. -/
def pipeB : Pipeline :=
  { inputs := [0], outputs := [2],
    nodes := [PipelineNode.stage
      { id := 1, inputs := [0], outputs := [2], mesh := [0] }] }

/-- C4 counterexample: after a first successful `runWithInput` call, the
returned executor state — which is exactly the state the next call starts
from, `runWithInput` containing no reset — still holds the first call's
binding of value 2, refuting "no value binding from the first call is
still present at the start of the second". -/
theorem valuestore_not_reset_counterexample :
    (runWithInput rtA pipeB [IValue.tensor 4] initState).1 = Outcome.ok [0] ∧
    alookup ((runWithInput rtA pipeB [IValue.tensor 4]
        initState).2).val_to_IValue_ 2 = some (IValue.tensor 0) := by
  decide

/-- Witness for the amended C4 on the concrete one-stage pipeline. -/
theorem run_twice_caches_persist_witness :
    (runWithInput rtA pipeB [IValue.tensor 4] initState).1 = Outcome.ok [0] ∧
    ((∀ v, (alookup initState.val_to_IValue_ v).isSome →
      (alookup ((runWithInput rtA pipeB [IValue.tensor 4]
          initState).2).val_to_IValue_ v).isSome) ∧
    (runWithInput rtA pipeB [IValue.tensor 5]
        ((runWithInput rtA pipeB [IValue.tensor 4]
          initState).2)).2.fecConstructions =
      ((runWithInput rtA pipeB [IValue.tensor 4]
        initState).2).fecConstructions ∧
    (runWithInput rtA pipeB [IValue.tensor 5]
        ((runWithInput rtA pipeB [IValue.tensor 4]
          initState).2)).2.membershipComputations =
      ((runWithInput rtA pipeB [IValue.tensor 4]
        initState).2).membershipComputations) :=
  ⟨by decide,
    run_twice_caches_persist_store_not_reset rtA pipeB
      [IValue.tensor 4] [IValue.tensor 5] initState [0] (by decide)⟩

end Nvfuser
